import Mathlib

/-! Verification of the `build.py` static-site builder.

The development shallowly embeds the build script: the front-matter split of
`parse_post`, the normalization of the `img` front-matter field, URL
derivation, the stable date-descending sorts used by the index / tag / RSS
builders, the tag grouping of `build_tag_pages`, and the filesystem-level
build pipeline of `main` (output-root wipe, static copy, thumbnail
generation, per-post staleness check and page writes).
-/

namespace VibeGallery

/-! Front matter model (`parse_post`, lines 33-42)

`content.split("---", 2)` is embedded over `List Char`: `splitFirst` splits
at the first (leftmost, non-overlapping search) occurrence of the `---`
delimiter, and `pySplit3` mirrors Python `str.split(sep, maxsplit=2)`:
at most two splits, the remainder kept verbatim as the last field. -/

/-- The front-matter delimiter `---` of `parse_post`. -/
def sepChars : List Char := ['-', '-', '-']

/-- All of the delimiter but its last character (used to state where an
occurrence overlapping a region boundary can start). -/
def sepTail : List Char := ['-', '-']

/-- Split at the first occurrence of `sepChars`, returning the text before
and after it; `none` when the delimiter does not occur. -/
def splitFirst : List Char → Option (List Char × List Char)
  | [] => none
  | c :: cs =>
    if sepChars.isPrefixOf (c :: cs) then
      some ([], (c :: cs).drop sepChars.length)
    else
      (splitFirst cs).map (fun ab => (c :: ab.1, ab.2))

/-- The second (and last, `maxsplit` being reached) splitting step of
Python `content.split("---", 2)`: one more field if the delimiter occurs
again, the remainder kept verbatim. -/
def pySplit3Rest (r : List Char) : List (List Char) :=
  match splitFirst r with
  | none => [r]
  | some (b, r2) => [b, r2]

/-- Python `content.split("---", 2)`: up to three fields, the third being
everything after the second occurrence, delimiters and all. -/
def pySplit3 (content : List Char) : List (List Char) :=
  match splitFirst content with
  | none => [content]
  | some (a, r) => a :: pySplit3Rest r

/-- The message of the `ValueError` Python raises when
`content.split("---", 2)` yields fewer than three values for the
three-variable unpacking in `parse_post`. -/
def splitErrMsg : String := "ValueError: not enough values to unpack"

/-- The front-matter stage of `parse_post` (lines 37-42): a file starting
with the delimiter is unpacked into `(metadata block, body)`; otherwise the
whole file is the body and there is no metadata block. -/
def parsePostSplit (content : List Char) :
    Except String (Option (List Char) × List Char) :=
  if sepChars.isPrefixOf content then
    match pySplit3 content with
    | [_, fm, body] => .ok (some fm, body)
    | _ => .error splitErrMsg
  else
    .ok (none, content)

/-! Front-matter `img` normalization (`parse_post`, lines 62-66) -/

/-- Scalar/sequence values as delivered by the external front-matter
parser. -/
inductive Yaml where
  | str (s : String)
  | list (xs : List Yaml)
  | int (n : Int)
  | null

/-- `imgs = meta.get("img", []); if isinstance(imgs, str): imgs = [imgs]`:
an absent `img` becomes `[]`, a string is wrapped in a one-element list,
anything else is kept as-is. -/
def normalizeImages : Option Yaml → Yaml
  | none => .list []
  | some (.str s) => .list [.str s]
  | some v => v

/-! URL derivation (`parse_post`, lines 52-57) -/

/-- `post_path` (line 53): `{subdir}/{slug}.html`, or `{slug}.html` when the
configured posts subdirectory is empty. -/
def postPathStr (subdir slug : String) : String :=
  if subdir ≠ "" then subdir ++ "/" ++ slug ++ ".html" else slug ++ ".html"

/-- `meta["url"]` (line 54): the site-relative path `/{post_path}`. -/
def postUrl (subdir slug : String) : String :=
  "/" ++ postPathStr subdir slug

/-- `meta["full_url"]` (line 57): the base URL joined with the post path
when a base URL is configured, else the relative url. -/
def postFullUrl (siteUrl subdir slug : String) : String :=
  if siteUrl ≠ "" then siteUrl ++ "/" ++ postPathStr subdir slug
  else postUrl subdir slug

/-- Python `str.lstrip("/")`: remove every leading slash. -/
def lstripSlash : List Char → List Char
  | '/' :: r => lstripSlash r
  | r => r

/-- `post["url"].lstrip("/")` (line 103): the output-relative path of a
post page. -/
def postOutRel (subdir slug : String) : String :=
  ⟨lstripSlash (postUrl subdir slug).toList⟩

/-! Posts and the date-descending stable sort

`sorted(posts, key=lambda p: p["date"], reverse=True)` is a stable sort:
equal dates keep their input order. It is embedded as an insertion sort
that inserts each element in front of the first element whose date is not
larger. -/

/-- The fields of the post mapping that the build steps consult. -/
structure PostRec where
  slug : String
  body : String
  date : Nat
  tags : List String
  images : List String
  srcMtime : Nat
deriving DecidableEq

/-- Insert a post into a date-descending list, in front of the first
element whose date is `≤` its own (so an earlier-listed post stays in
front of later posts with equal dates). -/
def insertDesc (x : PostRec) : List PostRec → List PostRec
  | [] => [x]
  | y :: ys => if y.date ≤ x.date then x :: y :: ys else y :: insertDesc x ys

/-- `sorted(posts, key=lambda p: p["date"], reverse=True)`. -/
def sortDesc : List PostRec → List PostRec
  | [] => []
  | x :: xs => insertDesc x (sortDesc xs)

/-- The post sequence handed to the index template (`build_index_page`,
line 112). -/
def indexPosts (posts : List PostRec) : List PostRec :=
  sortDesc posts

/-- The post sequence handed to the feed template (`build_rss`, line 128):
the first ten of the date-descending order. -/
def rssPosts (posts : List PostRec) : List PostRec :=
  (sortDesc posts).take 10

/-! Tag grouping (`build_tag_pages`, lines 116-125) -/

/-- `tags.setdefault(tag, []).append(post)` over an insertion-ordered
dictionary. -/
def insertTagPost (groups : List (String × List PostRec)) (t : String)
    (p : PostRec) : List (String × List PostRec) :=
  if groups.any (fun g => g.1 == t) then
    groups.map (fun g => if g.1 == t then (g.1, g.2 ++ [p]) else g)
  else
    groups ++ [(t, [p])]

/-- The grouping loop of `build_tag_pages`: one entry per distinct tag, a
post appended once per occurrence of the tag in its tag list. -/
def groupByTags (posts : List PostRec) : List (String × List PostRec) :=
  posts.foldl (fun gs p => p.tags.foldl (fun gs t => insertTagPost gs t p) gs) []

/-- The tag pages: each group sorted date-descending before rendering. -/
def buildTagPagesList (posts : List PostRec) : List (String × List PostRec) :=
  (groupByTags posts).map (fun g => (g.1, sortDesc g.2))

/-! Filesystem-level build pipeline (`main` and the writers)

The output tree is a list of files keyed by their path relative to the
output root. `write_file` truncates and rewrites, stamping the current
build time; `shutil.copy2` instead preserves the copied file's own
modification time, which is why static files carry their own `mtime`. -/

/-- A file of the output tree: output-root-relative path, last-modified
time, content. -/
structure OutFile where
  path : String
  mtime : Nat
  content : String
deriving DecidableEq

/-- `path.exists()` / reading a file: the entry at a path, if any. -/
def fsLookup (out : List OutFile) (p : String) : Option OutFile :=
  out.find? (fun f => f.path == p)

/-- `write_file`: replace whatever is at the path with the new content,
stamped with the given time. -/
def writeFile (out : List OutFile) (p : String) (c : String) (t : Nat) :
    List OutFile :=
  out.filter (fun f => f.path != p) ++ [⟨p, t, c⟩]

/-- The inputs of one invocation of `main`: configuration, template
modification time, the static files `copy_static` deposits (with their
preserved modification times), the image files present in `img/`, the
parsed posts, and the clock stamped onto files written this run. -/
structure Env where
  subdir : String
  tmplMtime : Nat
  staticFiles : List OutFile
  imgFiles : List String
  posts : List PostRec
  now : Nat
deriving DecidableEq

/-- `copy_static`, one file at a time (modification times preserved). -/
def copyStaticGo : List OutFile → List OutFile → List OutFile
  | [], out => out
  | f :: fs, out => copyStaticGo fs (writeFile out f.path f.content f.mtime)

/-- `copy_static` (lines 132-156), abstracted to the files it deposits. -/
def copyStatic (env : Env) (out : List OutFile) : List OutFile :=
  copyStaticGo env.staticFiles out

/-- `THUMB_DIR / img` relative to the output root. -/
def thumbPath (img : String) : String := "thumbs/" ++ img

/-- The body of the `generate_thumbnails` loop for one image reference:
skip when the thumbnail already exists, otherwise open the source image —
which raises when the file is missing, there being no handler — and write
the thumbnail. -/
def ensureThumb (env : Env) (st : List OutFile × List String) (img : String) :
    Except String (List OutFile × List String) :=
  if (fsLookup st.1 (thumbPath img)).isSome then
    .ok st
  else if img ∈ env.imgFiles then
    .ok (writeFile st.1 (thumbPath img) ("thumb:" ++ img) env.now,
         st.2 ++ [img])
  else
    .error ("FileNotFoundError: " ++ img)

/-- The inner loop of `generate_thumbnails` over one post's images; an
exception propagates and abandons the rest. -/
def ensureThumbs (env : Env) :
    List String → (List OutFile × List String) →
    Except String (List OutFile × List String)
  | [], st => .ok st
  | img :: imgs, st =>
    match ensureThumb env st img with
    | .error e => .error e
    | .ok st' => ensureThumbs env imgs st'

/-- The outer loop of `generate_thumbnails` over the posts. -/
def genThumbsPosts (env : Env) :
    List PostRec → (List OutFile × List String) →
    Except String (List OutFile × List String)
  | [], st => .ok st
  | p :: ps, st =>
    match ensureThumbs env p.images st with
    | .error e => .error e
    | .ok st' => genThumbsPosts env ps st'

/-- `generate_thumbnails(posts)` (lines 90-98): the updated output tree and
the list of image references a thumbnail was generated for, or the first
unhandled exception. -/
def generateThumbnails (env : Env) (out : List OutFile) :
    Except String (List OutFile × List String) :=
  genThumbsPosts env env.posts (out, [])

/-- One iteration of the `build_post_pages` loop (lines 102-109): skip when
the output exists and both the post source and the template are strictly
older than it; otherwise render and write the page.  The second component
records the paths rendered and written so far. -/
def buildPostStep (env : Env) (st : List OutFile × List String)
    (p : PostRec) : List OutFile × List String :=
  let path := postOutRel env.subdir p.slug
  match fsLookup st.1 path with
  | some f =>
    if p.srcMtime < f.mtime ∧ env.tmplMtime < f.mtime then st
    else (writeFile st.1 path ("post:" ++ p.body) env.now, st.2 ++ [path])
  | none => (writeFile st.1 path ("post:" ++ p.body) env.now, st.2 ++ [path])

/-- The `build_post_pages` loop. -/
def buildPostsGo (env : Env) :
    List PostRec → (List OutFile × List String) →
    List OutFile × List String
  | [], st => st
  | p :: ps, st => buildPostsGo env ps (buildPostStep env st p)

/-- `build_post_pages(posts)` (lines 100-109). -/
def buildPostPages (env : Env) (out : List OutFile) :
    List OutFile × List String :=
  buildPostsGo env env.posts (out, [])

/-- Rendering of a post list is abstracted to the bodies it lays out. -/
def renderList (ps : List PostRec) : String :=
  String.intercalate "," (ps.map (fun p => p.body))

/-- `build_index_page(posts)` (lines 111-114). -/
def buildIndexPage (env : Env) (out : List OutFile) : List OutFile :=
  writeFile out "index.html" ("index:" ++ renderList (indexPosts env.posts))
    env.now

/-- The page-writing loop of `build_tag_pages` (lines 122-125). -/
def buildTagPagesFs (env : Env) (out : List OutFile) : List OutFile :=
  (buildTagPagesList env.posts).foldl
    (fun o tp =>
      writeFile o ("tag-" ++ tp.1 ++ ".html")
        ("tag:" ++ tp.1 ++ ":" ++ renderList tp.2) env.now)
    out

/-- `build_rss(posts)` (lines 127-130). -/
def buildRssFs (env : Env) (out : List OutFile) : List OutFile :=
  writeFile out "rss.xml" ("rss:" ++ renderList (rssPosts env.posts)) env.now

/-- What a run of `main` produces: the final output tree, the image
references thumbnails were generated for, and the post page paths that
were rendered and written (as opposed to skipped). -/
structure BuildResult where
  out : List OutFile
  generatedThumbs : List String
  renderedPosts : List String
deriving DecidableEq

/-- `main()` (lines 159-177).  The previous output tree is an argument
only to be discarded: `shutil.rmtree(OUT_DIR)` deletes it — including
`out/thumbs` — before anything is built. -/
def mainBuild (env : Env) (_prevOut : List OutFile) :
    Except String BuildResult :=
  let out0 : List OutFile := []
  let out1 := copyStatic env out0
  match generateThumbnails env out1 with
  | .error e => .error e
  | .ok (out2, gen) =>
    let st := buildPostPages env out2
    let out4 := buildIndexPage env st.1
    let out5 := buildTagPagesFs env out4
    let out6 := buildRssFs env out5
    .ok ⟨out6, gen, st.2⟩

/-- The thumbnails a (possibly failed) build generated. -/
def genOf (e : Except String BuildResult) : List String :=
  match e with
  | .ok r => r.generatedThumbs
  | .error _ => []

/-- The final output tree of a (possibly failed) build. -/
def outOf (e : Except String BuildResult) : List OutFile :=
  match e with
  | .ok r => r.out
  | .error _ => []

/-- The post pages a (possibly failed) build rendered and wrote. -/
def renderedOf (e : Except String BuildResult) : List String :=
  match e with
  | .ok r => r.renderedPosts
  | .error _ => []

/-- The content at a path of a build's final output tree. -/
def contentAt (e : Except String BuildResult) (p : String) : Option String :=
  (fsLookup (outOf e) p).map (fun f => f.content)

/-- Whether the build ran to completion without an unhandled exception. -/
def buildOk (e : Except String BuildResult) : Bool :=
  match e with
  | .ok _ => true
  | .error _ => false

/-! Concrete build environments used to evaluate the pipeline -/

/-- A site with one post referencing one image that is present in `img/`. -/
def envC1 : Env :=
  ⟨"posts", 0, [], ["a.png"], [⟨"p", "pb", 0, [], ["a.png"], 0⟩], 100⟩

/-- A site whose single post references a missing image and a present one. -/
def envC2 : Env :=
  ⟨"posts", 0, [], ["other.png"],
   [⟨"p", "pb", 0, [], ["missing.png", "other.png"], 0⟩], 100⟩

/-- A site with two posts carrying the same slug, hence the same URL. -/
def envC4 : Env :=
  ⟨"posts", 50, [], [],
   [⟨"a", "FIRST", 0, [], [], 50⟩, ⟨"a", "SECOND", 0, [], [], 50⟩], 100⟩

/-- A post declaring the same tag twice. -/
def postC7 : PostRec := ⟨"a", "b", 5, ["x", "x"], [], 0⟩

/-- A site where `copy_static` deposits a file at a post's output path with
a preserved modification time newer than the post source and template. -/
def envC10 : Env :=
  ⟨"posts", 50, [⟨"posts/a.html", 100, "staticpage"⟩], [],
   [⟨"a", "b", 0, [], [], 50⟩], 200⟩

/-- A small collision-free site. -/
def envC10W : Env :=
  ⟨"posts", 0, [], [], [⟨"a", "b", 0, [], [], 0⟩], 1⟩

/-- A post used to instantiate hypotheses about post lists. -/
def postC9 : PostRec := ⟨"a", "b", 3, [], [], 0⟩

/-- The build result of running `main` on `envC10W` with an empty previous
output tree. -/
def resW : BuildResult :=
  ⟨[⟨"posts/a.html", 1, "post:b"⟩, ⟨"index.html", 1, "index:b"⟩,
    ⟨"rss.xml", 1, "rss:b"⟩], [], ["posts/a.html"]⟩

/-! Theorems -/

/-- C6 (confirmed): the `images` field of a parsed post is always a
sequence — a single-string `img` value normalizes to the one-element
sequence containing it, a sequence value is kept as-is, and an absent
`img` field normalizes to the empty sequence. -/
theorem c6_images_always_sequence :
    (∀ s, normalizeImages (some (.str s)) = .list [.str s])
    ∧ (∀ xs, normalizeImages (some (.list xs)) = .list xs)
    ∧ normalizeImages none = .list [] :=
  ⟨fun _ => rfl, fun _ => rfl, rfl⟩

/-- C1 (code bug): the claim — and the spec — say the thumbnail cache
subtree persists across builds, is only added to, and a thumbnail is
generated at most once per persisted cache lifetime.  The code instead
wipes `OUT_DIR` — which contains `THUMB_DIR` — at the start of `main`, so
two consecutive builds of the same unchanged site both generate the
thumbnail for `a.png`, even though the first build's output tree still
holds the cached entry. -/
theorem c1_thumb_cache_wiped_each_build :
    genOf (mainBuild envC1 []) = ["a.png"]
    ∧ (fsLookup (outOf (mainBuild envC1 [])) (thumbPath "a.png")).isSome = true
    ∧ genOf (mainBuild envC1 (outOf (mainBuild envC1 []))) = ["a.png"] := by
  decide

/-- C2 (code bug): the claim — and the spec — say a missing source image
must fail in isolation, leaving other thumbnails generated and the build
alive.  `generate_thumbnails` has no handler, so the exception raised when
opening `missing.png` aborts the whole build: `other.png`, although
present and a cache miss, never gets a thumbnail. -/
theorem c2_missing_image_aborts_build :
    mainBuild envC2 [] = .error "FileNotFoundError: missing.png"
    ∧ genOf (mainBuild envC2 []) = []
    ∧ buildOk (mainBuild envC2 []) = false :=
  ⟨rfl, by decide, by decide⟩

/-- C4 (code bug): the claim — and the spec — say two posts with the same
slug must surface a `SlugCollisionError`.  The code has no collision check
of any kind: with two posts of slug `a`, the build completes without
error, the first post's page is written to `posts/a.html`, and the second
post is silently skipped by the modification-time check against the page
just written. -/
theorem c4_slug_collision_silently_shadowed :
    buildOk (mainBuild envC4 []) = true
    ∧ envC4.posts.length = 2
    ∧ renderedOf (mainBuild envC4 []) = ["posts/a.html"]
    ∧ contentAt (mainBuild envC4 []) "posts/a.html" = some "post:FIRST" := by
  decide

/-- C7 (code bug): the claim — and the spec — say a post declaring the
same tag more than once still renders only once in that tag's group.  The
grouping loop of `build_tag_pages` appends the post once per occurrence of
the tag, so a post with tags `["x", "x"]` appears twice on `tag-x.html`. -/
theorem c7_duplicate_tag_rendered_twice :
    postC7.tags = ["x", "x"]
    ∧ buildTagPagesList [postC7] = [("x", [postC7, postC7])] := by
  decide

/-- C10 (counterexample): the claim says the staleness skip branch of
`build_post_pages` is never taken, every post page being rendered on every
run.  But `copy_static` runs after the output wipe and before the post
pages, preserving the modification times of copied files; a static file at
`posts/a.html` with modification time 100 makes the post with source
mtime 50 and template mtime 50 hit the skip branch, so the post page is
never rendered and the static file's content is served in its place. -/
theorem c10_static_file_triggers_skip :
    envC10.posts.length = 1
    ∧ renderedOf (mainBuild envC10 []) = []
    ∧ contentAt (mainBuild envC10 []) "posts/a.html" = some "staticpage" := by
  decide

theorem writePair_ne_st (st : List OutFile × List String) (o : List OutFile)
    (q : String) : (o, st.2 ++ [q]) ≠ st := by
  intro h
  have h2 := congrArg (fun x => x.2.length) h
  simp [List.length_append] at h2

/-- C3 (confirmed): an iteration of `build_post_pages` leaves the state
untouched (skips regeneration) if and only if the output file exists and
both the post's source file and the post template have modification times
strictly earlier than the output's; a missing output, or an input whose
modification time is equal to or later than the output's, forces the page
to be rendered and written. -/
theorem c3_skip_iff_fresh_output (env : Env) (st : List OutFile × List String)
    (p : PostRec) :
    buildPostStep env st p = st ↔
      ∃ f, fsLookup st.1 (postOutRel env.subdir p.slug) = some f ∧
        p.srcMtime < f.mtime ∧ env.tmplMtime < f.mtime := by
  cases h : fsLookup st.1 (postOutRel env.subdir p.slug) with
  | none =>
    simp only [buildPostStep, h]
    constructor
    · intro heq
      exact absurd heq (writePair_ne_st st _ _)
    · rintro ⟨f, hf, -⟩
      exact Option.noConfusion hf
  | some f =>
    simp only [buildPostStep, h]
    by_cases hc : p.srcMtime < f.mtime ∧ env.tmplMtime < f.mtime
    · rw [if_pos hc]
      exact ⟨fun _ => ⟨f, rfl, hc⟩, fun _ => rfl⟩
    · rw [if_neg hc]
      constructor
      · intro heq
        exact absurd heq (writePair_ne_st st _ _)
      · rintro ⟨f', hf', hlt⟩
        injection hf' with hff
        subst hff
        exact absurd hlt hc

/-- Witness for C3: an existing output of mtime 9 with inputs of mtimes 3
and 4 is skipped; its absence forces a write. -/
theorem c3_skip_iff_fresh_output_witness :
    buildPostStep ⟨"posts", 4, [], [], [], 9⟩
        ([⟨"posts/a.html", 9, "old"⟩], []) ⟨"a", "b", 0, [], [], 3⟩
      = ([⟨"posts/a.html", 9, "old"⟩], []) :=
  (c3_skip_iff_fresh_output ⟨"posts", 4, [], [], [], 9⟩
      ([⟨"posts/a.html", 9, "old"⟩], []) ⟨"a", "b", 0, [], [], 3⟩).mpr
    ⟨⟨"posts/a.html", 9, "old"⟩, by decide, by decide, by decide⟩

theorem sep_isPrefixOf_append (r : List Char) :
    sepChars.isPrefixOf (sepChars ++ r) = true := by
  rw [ List.isPrefixOf_iff_prefix]
  exact ⟨r, rfl⟩

theorem splitFirst_sepPre (r : List Char) :
    splitFirst (sepChars ++ r) = some ([], r) := by
  rw [show sepChars ++ r = '-' :: ('-' :: '-' :: r) from rfl]
  simp only [splitFirst]
  rw [if_pos (by rw [ List.isPrefixOf_iff_prefix]; exact ⟨r, rfl⟩)]
  rfl

theorem noOcc_cons (c : Char) (xs : List Char)
    (H : ∀ a b, c :: xs ≠ a ++ sepChars ++ b) :
    ∀ a b, xs ≠ a ++ sepChars ++ b := by
  intro a b h
  exact H (c :: a) b (by rw [h]; rfl)

theorem notPfx_of_noOcc (xs : List Char)
    (H : ∀ a b, xs ≠ a ++ sepChars ++ b) :
    ¬ sepChars.isPrefixOf xs = true := by
  intro hp
  rw [ List.isPrefixOf_iff_prefix] at hp
  obtain ⟨t, ht⟩ := hp
  exact H [] t (by rw [← ht]; rfl)

theorem splitFirst_none_of_noOcc (xs : List Char)
    (H : ∀ a b, xs ≠ a ++ sepChars ++ b) :
    splitFirst xs = none := by
  induction xs with
  | nil => rfl
  | cons c cs ih =>
    simp only [splitFirst]
    rw [if_neg (notPfx_of_noOcc _ H), ih (noOcc_cons c cs H)]
    rfl

theorem splitFirst_boundary (fm body : List Char)
    (H : ∀ a b, fm ++ sepTail ≠ a ++ sepChars ++ b) :
    splitFirst (fm ++ sepChars ++ body) = some (fm, body) := by
  induction fm with
  | nil => exact splitFirst_sepPre body
  | cons c fm' ih =>
    have hx : (c :: fm') ++ sepChars ++ body = c :: (fm' ++ sepChars ++ body) := by
      simp
    rw [hx]
    have hnp : ¬ sepChars.isPrefixOf (c :: (fm' ++ sepChars ++ body)) = true := by
      intro hp
      rw [ List.isPrefixOf_iff_prefix] at hp
      have hp2 : (c :: fm') ++ sepTail <+: c :: (fm' ++ sepChars ++ body) := by
        refine ⟨'-' :: body, ?_⟩
        simp [sepTail, sepChars]
      have hle : sepChars.length ≤ ((c :: fm') ++ sepTail).length := by
        simp [sepChars, sepTail]
      obtain ⟨t, ht⟩ := List.prefix_of_prefix_length_le hp hp2 hle
      exact H [] t (by rw [← ht]; rfl)
    simp only [splitFirst]
    rw [if_neg hnp, ih (noOcc_cons c (fm' ++ sepTail) H)]
    rfl

theorem splitFirst_ne_none_of_occ (a b : List Char) :
    splitFirst (a ++ sepChars ++ b) ≠ none := by
  induction a with
  | nil =>
    rw [show [] ++ sepChars ++ b = sepChars ++ b from rfl, splitFirst_sepPre]
    exact Option.noConfusion
  | cons c a' ih =>
    have hx : (c :: a') ++ sepChars ++ b = c :: (a' ++ sepChars ++ b) := by
      simp
    rw [hx]
    simp only [splitFirst]
    by_cases hp : sepChars.isPrefixOf (c :: (a' ++ sepChars ++ b)) = true
    · rw [if_pos hp]
      exact Option.noConfusion
    · rw [if_neg hp]
      intro hmap
      cases hsf : splitFirst (a' ++ sepChars ++ b) with
      | none => exact ih hsf
      | some ab =>
        rw [hsf] at hmap
        exact Option.noConfusion hmap

theorem pySplit3_two (content a r b r2 : List Char)
    (h1 : splitFirst content = some (a, r))
    (h2 : splitFirst r = some (b, r2)) :
    pySplit3 content = [a, b, r2] := by
  unfold pySplit3
  rw [h1]
  show a :: pySplit3Rest r = [a, b, r2]
  unfold pySplit3Rest
  rw [h2]

theorem pySplit3_one (content a r : List Char)
    (h1 : splitFirst content = some (a, r))
    (h2 : splitFirst r = none) :
    pySplit3 content = [a, r] := by
  unfold pySplit3
  rw [h1]
  show a :: pySplit3Rest r = [a, r]
  unfold pySplit3Rest
  rw [h2]

theorem noOcc_of_splitFirst_none (xs : List Char) (h : splitFirst xs = none) :
    ∀ a b, xs ≠ a ++ sepChars ++ b := by
  intro a b hx
  exact splitFirst_ne_none_of_occ a b (hx ▸ h)

/-- C5 (corrected, amended): for a file beginning with the front-matter
delimiter in which the delimiter occurs a second time, parsing splits at
the first two occurrences — the text between them is the metadata block
and everything after the second occurrence is the body; for a file
beginning with the delimiter that has no second occurrence, parsing fails
with an unpacking error instead of producing a split; and for a file not
beginning with the delimiter the whole file is the body with empty
metadata.  (The hypothesis `∀ a b, fm ++ sepTail ≠ a ++ sepChars ++ b`
says the delimiter does not occur inside the metadata block nor
overlapping its right boundary, i.e. the occurrence ending the block is
the first one after the opening delimiter.) -/
theorem c5_front_matter_split :
    (∀ fm body : List Char, (∀ a b, fm ++ sepTail ≠ a ++ sepChars ++ b) →
      parsePostSplit (sepChars ++ fm ++ sepChars ++ body) = .ok (some fm, body))
    ∧ (∀ rest : List Char, (∀ a b, rest ≠ a ++ sepChars ++ b) →
      parsePostSplit (sepChars ++ rest) = .error splitErrMsg)
    ∧ (∀ content : List Char, sepChars.isPrefixOf content = false →
      parsePostSplit content = .ok (none, content)) := by
  refine ⟨?_, ?_, ?_⟩
  · intro fm body H
    have hassoc : sepChars ++ fm ++ sepChars ++ body
        = sepChars ++ (fm ++ sepChars ++ body) := by
      simp
    rw [hassoc]
    unfold parsePostSplit
    rw [if_pos (sep_isPrefixOf_append _)]
    rw [pySplit3_two _ _ _ _ _ (splitFirst_sepPre _)
      (splitFirst_boundary fm body H)]
  · intro rest H
    unfold parsePostSplit
    rw [if_pos (sep_isPrefixOf_append _)]
    rw [pySplit3_one _ _ _ (splitFirst_sepPre _)
      (splitFirst_none_of_noOcc rest H)]
  · intro content h
    unfold parsePostSplit
    rw [if_neg (by simp [h])]

/-- Witness for C5 (amended): `---t---b` parses to metadata `t` and body
`b`; `---x` (no second delimiter) is an unpacking error; `hi` is all body
with no metadata. -/
theorem c5_front_matter_split_witness :
    parsePostSplit (sepChars ++ ['t'] ++ sepChars ++ ['b'])
      = .ok (some ['t'], ['b'])
    ∧ parsePostSplit (sepChars ++ ['x']) = .error splitErrMsg
    ∧ parsePostSplit ['h', 'i'] = .ok (none, ['h', 'i']) :=
  ⟨c5_front_matter_split.1 ['t'] ['b'] (noOcc_of_splitFirst_none _ rfl),
   c5_front_matter_split.2.1 ['x'] (noOcc_of_splitFirst_none _ rfl),
   c5_front_matter_split.2.2 ['h', 'i'] rfl⟩

/-- C5 counterexample: a file consisting of the delimiter alone begins
with the front-matter delimiter, yet parsing raises an unpacking error —
it does not produce the metadata/body split the claim asserts for every
file beginning with the delimiter. -/
theorem c5_single_delimiter_is_error :
    sepChars.isPrefixOf ['-', '-', '-'] = true
    ∧ parsePostSplit ['-', '-', '-'] = .error splitErrMsg :=
  ⟨rfl, rfl⟩

theorem insertDesc_perm (x : PostRec) (l : List PostRec) :
    (insertDesc x l).Perm (x :: l) := by
  induction l with
  | nil => exact List.Perm.refl _
  | cons y ys ih =>
    simp only [insertDesc]
    by_cases h : y.date ≤ x.date
    · rw [if_pos h]
    · rw [if_neg h]
      exact (ih.cons y).trans (List.Perm.swap x y ys)

theorem sortDesc_perm (l : List PostRec) : (sortDesc l).Perm l := by
  induction l with
  | nil => exact List.Perm.refl _
  | cons x xs ih =>
    exact (insertDesc_perm x (sortDesc xs)).trans (ih.cons x)

theorem sortDesc_length (l : List PostRec) : (sortDesc l).length = l.length :=
  (sortDesc_perm l).length_eq

theorem insertDesc_pairwise (x : PostRec) (l : List PostRec)
    (h : List.Pairwise (fun a b => b.date ≤ a.date) l) :
    List.Pairwise (fun a b => b.date ≤ a.date) (insertDesc x l) := by
  induction l with
  | nil => simp [insertDesc]
  | cons y ys ih =>
    simp only [insertDesc]
    rcases List.pairwise_cons.mp h with ⟨hy, hys⟩
    by_cases hc : y.date ≤ x.date
    · rw [if_pos hc]
      refine List.Pairwise.cons ?_ h
      intro z hz
      rcases List.mem_cons.mp hz with rfl | hz
      · exact hc
      · exact le_trans (hy z hz) hc
    · rw [if_neg hc]
      refine List.Pairwise.cons ?_ (ih hys)
      intro z hz
      rcases List.mem_cons.mp ((insertDesc_perm x ys).subset hz) with rfl | hz
      · exact le_of_lt (Nat.lt_of_not_le hc)
      · exact hy z hz

theorem sortDesc_pairwise (l : List PostRec) :
    List.Pairwise (fun a b => b.date ≤ a.date) (sortDesc l) := by
  induction l with
  | nil => exact List.Pairwise.nil
  | cons x xs ih => exact insertDesc_pairwise x (sortDesc xs) ih

theorem insertDesc_filter (x : PostRec) (l : List PostRec) (d : Nat) :
    (insertDesc x l).filter (fun p => p.date == d)
      = if x.date = d then x :: l.filter (fun p => p.date == d)
        else l.filter (fun p => p.date == d) := by
  induction l with
  | nil =>
    by_cases hx : x.date = d <;> simp [insertDesc, List.filter_cons, hx]
  | cons y ys ih =>
    simp only [insertDesc]
    by_cases hc : y.date ≤ x.date
    · rw [if_pos hc]
      by_cases hx : x.date = d <;> simp [List.filter_cons, hx]
    · rw [if_neg hc]
      by_cases hx : x.date = d
      · have hyd : y.date ≠ d := by
          have := Nat.lt_of_not_le hc
          omega
        simp [List.filter_cons, hx, hyd, ih]
      · simp [List.filter_cons, hx, ih]

theorem sortDesc_filter (l : List PostRec) (d : Nat) :
    (sortDesc l).filter (fun p => p.date == d)
      = l.filter (fun p => p.date == d) := by
  induction l with
  | nil => rfl
  | cons x xs ih =>
    simp only [sortDesc]
    rw [insertDesc_filter]
    by_cases hx : x.date = d
    · simp [List.filter_cons, hx, ih]
    · simp [List.filter_cons, hx, ih]

/-- C8 (confirmed): the index page is rendered with the full post sequence
sorted by date descending by a stable sort — the result is a permutation
of the input, pairwise ordered by non-increasing date, and for every date
the subsequence of posts carrying that date is exactly the one of the
input, so ties keep their original relative order. -/
theorem c8_index_sorted_stable :
    ∀ l : List PostRec,
      (indexPosts l).Perm l
      ∧ List.Pairwise (fun a b => b.date ≤ a.date) (indexPosts l)
      ∧ ∀ d, (indexPosts l).filter (fun p => p.date == d)
          = l.filter (fun p => p.date == d) :=
  fun l => ⟨sortDesc_perm l, sortDesc_pairwise l, fun d => sortDesc_filter l d⟩

/-- C9 (confirmed): the RSS feed is rendered from exactly the first ten
posts of the date-descending sorted sequence — a length-`min 10 n` prefix
of the sorted sequence, and the whole sorted sequence when at most ten
posts exist — and a post's `full_url` equals its relative `url` when no
site base URL is configured. -/
theorem c9_rss_first_ten_full_url :
    (∀ l : List PostRec, rssPosts l <+: indexPosts l
        ∧ (rssPosts l).length = min 10 l.length)
    ∧ (∀ l : List PostRec, l.length ≤ 10 → rssPosts l = indexPosts l)
    ∧ (∀ subdir slug, postFullUrl "" subdir slug = postUrl subdir slug) := by
  refine ⟨fun l => ⟨ List.take_prefix _ _, ?_⟩, fun l h => ?_, fun subdir slug => ?_⟩
  · rw [rssPosts, List.length_take, sortDesc_length]
  · rw [rssPosts, indexPosts]
    exact List.take_of_length_le (by rw [sortDesc_length]; exact h)
  · unfold postFullUrl
    rw [if_neg (by simp)]

/-- Witness for C9: a one-post list is its own feed sequence, and with an
empty configured base URL the full URL of slug `a` under subdirectory
`posts` is its relative URL. -/
theorem c9_rss_first_ten_full_url_witness :
    rssPosts [postC9] = indexPosts [postC9]
    ∧ postFullUrl "" "posts" "a" = postUrl "posts" "a" :=
  ⟨c9_rss_first_ten_full_url.2.1 [postC9] (by decide),
   c9_rss_first_ten_full_url.2.2 "posts" "a"⟩

theorem mem_writeFile {f : OutFile} {out : List OutFile} {p c : String}
    {t : Nat} (h : f ∈ writeFile out p c t) : f ∈ out ∨ f.path = p := by
  unfold writeFile at h
  rcases List.mem_append.mp h with h1 | h1
  · exact Or.inl (List.mem_of_mem_filter h1)
  · rw [List.mem_singleton] at h1
    subst h1
    exact Or.inr rfl

theorem fsLookup_writeFile_ne {out : List OutFile} {p c : String} {t : Nat}
    {q : String} (h : q ≠ p) :
    fsLookup (writeFile out p c t) q = fsLookup out q := by
  unfold fsLookup writeFile
  induction out with
  | nil =>
    simp only [List.filter_nil, List.nil_append]
    rw [List.find?_cons_of_neg _ (by simpa using Ne.symm h)]
  | cons g out' ih =>
    by_cases hg : g.path = p
    · rw [List.filter_cons, if_neg (by simpa using hg)]
      rw [List.find?_cons_of_neg _ (by simpa using hg ▸ Ne.symm h)]
      exact ih
    · rw [List.filter_cons, if_pos (by simpa using hg)]
      by_cases hgq : g.path = q
      · rw [List.cons_append,
          List.find?_cons_of_pos _ (by simpa using hgq),
          List.find?_cons_of_pos _ (by simpa using hgq)]
      · rw [List.cons_append,
          List.find?_cons_of_neg _ (by simpa using hgq),
          List.find?_cons_of_neg _ (by simpa using hgq)]
        exact ih

theorem fsLookup_none_of (out : List OutFile) (s : String)
    (h : ∀ f ∈ out, f.path ≠ s) : fsLookup out s = none := by
  unfold fsLookup
  rw [List.find?_eq_none]
  intro f hf
  simpa using h f hf

theorem copyStaticGo_mem (fs : List OutFile) (out : List OutFile)
    (f : OutFile) (h : f ∈ copyStaticGo fs out) :
    f ∈ out ∨ ∃ g ∈ fs, f.path = g.path := by
  induction fs generalizing out with
  | nil => exact Or.inl h
  | cons g fs' ih =>
    rcases ih _ h with h1 | ⟨g', hg', hp⟩
    · rcases mem_writeFile h1 with h2 | h2
      · exact Or.inl h2
      · exact Or.inr ⟨g, List.mem_cons_self g fs', h2⟩
    · exact Or.inr ⟨g', List.mem_cons_of_mem _ hg', hp⟩

theorem ensureThumb_mem {env : Env} {st : List OutFile × List String}
    {img : String} {st' : List OutFile × List String}
    (h : ensureThumb env st img = .ok st') {f : OutFile} (hf : f ∈ st'.1) :
    f ∈ st.1 ∨ f.path = thumbPath img := by
  unfold ensureThumb at h
  by_cases h1 : (fsLookup st.1 (thumbPath img)).isSome = true
  · rw [if_pos h1] at h
    injection h with h
    subst h
    exact Or.inl hf
  · rw [if_neg h1] at h
    by_cases h2 : img ∈ env.imgFiles
    · rw [if_pos h2] at h
      injection h with h
      subst h
      exact mem_writeFile hf
    · rw [if_neg h2] at h
      exact Except.noConfusion h

theorem ensureThumbs_mem {env : Env} (imgs : List String)
    {st st' : List OutFile × List String}
    (h : ensureThumbs env imgs st = .ok st') {f : OutFile} (hf : f ∈ st'.1) :
    f ∈ st.1 ∨ ∃ img ∈ imgs, f.path = thumbPath img := by
  induction imgs generalizing st with
  | nil =>
    injection h with h
    subst h
    exact Or.inl hf
  | cons img imgs' ih =>
    simp only [ensureThumbs] at h
    cases heq : ensureThumb env st img with
    | error e =>
      rw [heq] at h
      exact Except.noConfusion h
    | ok st₁ =>
      rw [heq] at h
      rcases ih h with h1 | ⟨i, hi, hp⟩
      · rcases ensureThumb_mem heq h1 with h2 | h2
        · exact Or.inl h2
        · exact Or.inr ⟨img, List.mem_cons_self img imgs', h2⟩
      · exact Or.inr ⟨i, List.mem_cons_of_mem _ hi, hp⟩

theorem genThumbsPosts_mem {env : Env} (ps : List PostRec)
    {st st' : List OutFile × List String}
    (h : genThumbsPosts env ps st = .ok st') {f : OutFile} (hf : f ∈ st'.1) :
    f ∈ st.1 ∨ ∃ q ∈ ps, ∃ img ∈ q.images, f.path = thumbPath img := by
  induction ps generalizing st with
  | nil =>
    injection h with h
    subst h
    exact Or.inl hf
  | cons p ps' ih =>
    simp only [genThumbsPosts] at h
    cases heq : ensureThumbs env p.images st with
    | error e =>
      rw [heq] at h
      exact Except.noConfusion h
    | ok st₁ =>
      rw [heq] at h
      rcases ih h with h1 | ⟨q, hq, hrest⟩
      · rcases ensureThumbs_mem p.images heq h1 with h2 | ⟨i, hi, hp⟩
        · exact Or.inl h2
        · exact Or.inr ⟨p, List.mem_cons_self p ps', i, hi, hp⟩
      · exact Or.inr ⟨q, List.mem_cons_of_mem _ hq, hrest⟩

theorem buildPostsGo_renders (env : Env) (ps : List PostRec)
    (out : List OutFile) (acc : List String)
    (hnd : (ps.map (fun p => postOutRel env.subdir p.slug)).Nodup)
    (hfree : ∀ p ∈ ps, fsLookup out (postOutRel env.subdir p.slug) = none) :
    (buildPostsGo env ps (out, acc)).2
      = acc ++ ps.map (fun p => postOutRel env.subdir p.slug) := by
  induction ps generalizing out acc with
  | nil => simp [buildPostsGo]
  | cons p ps' ih =>
    simp only [buildPostsGo]
    have hstep : buildPostStep env (out, acc) p
        = (writeFile out (postOutRel env.subdir p.slug)
            ("post:" ++ p.body) env.now,
           acc ++ [postOutRel env.subdir p.slug]) := by
      simp only [buildPostStep]
      rw [hfree p (List.mem_cons_self p ps')]
    rw [hstep]
    rcases List.nodup_cons.mp hnd with ⟨hnotin, hnd'⟩
    rw [ih _ _ hnd' ?hfree']
    · simp
    case hfree' =>
      intro q hq
      have hne : postOutRel env.subdir q.slug ≠ postOutRel env.subdir p.slug := by
        intro he
        apply hnotin
        show postOutRel env.subdir p.slug ∈ _
        rw [← he]
        exact List.mem_map_of_mem _ hq
      rw [fsLookup_writeFile_ne hne]
      exact hfree q (List.mem_cons_of_mem _ hq)

/-- C10 (amended, confirmed): the output root is deleted and recreated
before any post page is built, so no output of a previous build can
trigger the staleness skip — provided no file written earlier in the same
run occupies a post's output path (no static file and no thumbnail path
coincides with a post output path, and the post output paths are
pairwise distinct), every post page is rendered and written, whatever the
previous output tree was. -/
theorem c10_fresh_out_renders_all (env : Env) (prevOut : List OutFile)
    (hnd : (env.posts.map (fun p => postOutRel env.subdir p.slug)).Nodup)
    (hstatic : ∀ f ∈ env.staticFiles, ∀ p ∈ env.posts,
      f.path ≠ postOutRel env.subdir p.slug)
    (hthumb : ∀ q ∈ env.posts, ∀ img ∈ q.images, ∀ p ∈ env.posts,
      thumbPath img ≠ postOutRel env.subdir p.slug)
    (r : BuildResult) (hok : mainBuild env prevOut = .ok r) :
    r.renderedPosts = env.posts.map (fun p => postOutRel env.subdir p.slug) := by
  simp only [mainBuild] at hok
  cases hg : generateThumbnails env (copyStatic env []) with
  | error e =>
    rw [hg] at hok
    exact Except.noConfusion hok
  | ok st2 =>
    rw [hg] at hok
    obtain ⟨out2, gen⟩ := st2
    have hok2 := Except.ok.inj hok
    subst hok2
    show (buildPostPages env out2).2 = _
    have hfree : ∀ p ∈ env.posts,
        fsLookup out2 (postOutRel env.subdir p.slug) = none := by
      intro p hp
      apply fsLookup_none_of
      intro f hf
      rcases genThumbsPosts_mem env.posts hg hf with h1 | ⟨q, hq, img, hi, hpath⟩
      · rcases copyStaticGo_mem env.staticFiles [] f h1 with h2 | ⟨g, hgm, hp2⟩
        · exact absurd h2 (List.not_mem_nil f)
        · rw [hp2]
          exact hstatic g hgm p hp
      · rw [hpath]
        exact hthumb q hq img hi p hp
    have hmain := buildPostsGo_renders env env.posts out2 [] hnd hfree
    simpa [buildPostPages] using hmain

/-- Witness for C10 (amended): a collision-free one-post site renders its
single post page on a build from an arbitrary previous output tree. -/
theorem c10_fresh_out_renders_all_witness :
    resW.renderedPosts
      = envC10W.posts.map (fun p => postOutRel envC10W.subdir p.slug) :=
  c10_fresh_out_renders_all envC10W [⟨"posts/a.html", 7, "leftover"⟩]
    (by decide) (by decide) (by decide) resW (by rfl)

end VibeGallery
